import Mathlib

/-!
Verification development for the PromptPerfect-Gemini client.

The embedding below follows the repository sources:
- `src/types.ts` : the `RefinementGoal` enumeration and the `RefinementHistory` record;
- `src/services/geminiService.ts` : the instruction builder `getSystemInstruction`
  and the refinement client `refinePrompt`;
- `src/App.tsx` : the `handleRefine` handler, the bounded history list and its
  persistence through `localStorage` with `JSON.stringify` / `JSON.parse`.

External collaborators are made explicit:
- the remote generation call (`ai.models.generateContent`) is a parameter of type
  `GenRequest → RemoteOutcome`; the embedding also returns the list of requests
  actually issued, so that "the remote call is never attempted" is the statement
  that this list is empty;
- `JSON.stringify` / `JSON.parse` (runtime built-ins) are modelled by `Json.stringify`
  and `Json.parse` over an explicit `Json` value type.  Numbers are modelled as the
  natural numbers this application produces (epoch-millisecond timestamps); the
  negative / fractional part of the JSON number grammar is not needed by any input
  appearing in the statements below.
- `Date.now()` results are explicit `Nat` parameters (epoch milliseconds); the two
  separate `Date.now()` invocations in `handleRefine` are two separate parameters.
-/

/-! ## Small string utilities (model of JavaScript `String.prototype.includes`) -/

def startsList : List Char → List Char → Bool
  | p :: ps, q :: qs => p == q && startsList ps qs
  | [], _ => true
  | _, [] => false

def containsList : List Char → List Char → Bool
  | [], pat => startsList pat []
  | c :: t, pat => startsList pat (c :: t) || containsList t pat

def strIncludes (s pat : String) : Bool := containsList s.data pat.data

/-! ## Data model (src/types.ts) -/

inductive RefinementGoal where
  | GENERAL
  | TECHNICAL
  | CREATIVE
  | CONCISE
  | CODING
  | STRUCTURED
deriving DecidableEq

/-- The string value of each member of the TypeScript `enum RefinementGoal`. -/
def RefinementGoal.value : RefinementGoal → String
  | .GENERAL => "General Improvement"
  | .TECHNICAL => "Technical & Scientific"
  | .CREATIVE => "Creative & Descriptive"
  | .CONCISE => "Ultra Concise"
  | .CODING => "Software Development"
  | .STRUCTURED => "Highly Structured/JSON"

/-- The `RefinementHistory` interface of `src/types.ts`; `timestamp` is epoch ms. -/
structure RefinementHistory where
  id : String
  original : String
  refined : String
  goal : RefinementGoal
  timestamp : Nat
deriving DecidableEq

/-! ## Instruction builder (`getSystemInstruction` in src/services/geminiService.ts) -/

def instructionBase : String :=
  "You are a world-class prompt engineer and AI optimization expert.\n" ++
  "  Your task is to take a raw, simple, or poorly constructed user prompt and transform it into a high-quality instruction for a Large Language Model.\n" ++
  "  \n" ++
  "  Follow these principles:\n" ++
  "  1. Clarity & Precision: Eliminate ambiguity.\n" ++
  "  2. Contextual Depth: Add relevant context that helps the AI understand the underlying goal.\n" ++
  "  3. Formatting: Use Markdown structure (headings, lists) where appropriate to increase readability for the AI.\n" ++
  "  4. Role Play: Often, assigning a specific persona helps (e.g., 'You are a senior data scientist').\n" ++
  "  5. Negative Constraints: Specify what NOT to do if relevant.\n" ++
  "  "

/-- The `goals` record mapping each `RefinementGoal` to its specific clause. -/
def goalClause : RefinementGoal → String
  | .GENERAL => "Provide a well-balanced, professional, and clear version of the user's prompt."
  | .TECHNICAL => "Focus on precision, terminology accuracy, and logical sequence. Ensure the prompt asks for evidence-based or mathematically sound responses."
  | .CREATIVE => "Enhance descriptive language, encourage stylistic flair, and broaden the imaginative scope. Add sensory details and emotional tone requirements."
  | .CONCISE => "Strip away fluff. Make the prompt direct and efficient while retaining the core intent. Use imperative language."
  | .CODING => "Focus on architecture, clean code principles, edge cases, and specific programming paradigms. Include requirements for documentation and testing."
  | .STRUCTURED => "Ensure the prompt asks for a strictly structured output (like JSON, Table, or CSV). Add schema requirements and type definitions."

def getSystemInstruction (goal : RefinementGoal) : String :=
  instructionBase ++ "\n\nSPECIFIC GOAL: " ++ goalClause goal ++
  "\n\nRespond ONLY with the refined prompt. Do not provide meta-commentary like 'Here is your prompt'. Just the prompt text itself."

/-! ## Model of JavaScript `String.prototype.trim` -/

/-- The main JavaScript whitespace characters (space, tab, line feed, carriage
return, vertical tab, form feed, no-break space). -/
def isJsWsChar (c : Char) : Bool :=
  c == ' ' || c == '\t' || c == '\n' || c == '\r' || c == '\x0b' || c == '\x0c' || c == '\xa0'

/-- `s.trim()`: remove leading and trailing whitespace. -/
def jsTrim (s : String) : String :=
  String.mk (((s.data.dropWhile isJsWsChar).reverse.dropWhile isJsWsChar).reverse)

/-! ## Refinement client (`refinePrompt` in src/services/geminiService.ts) -/

/-- The payload of one `ai.models.generateContent` call. -/
structure GenRequest where
  model : String
  contents : String
  systemInstruction : String
  temperature : ℚ
  topP : ℚ
deriving DecidableEq

/-- The response object; `.text` may be `undefined`. -/
structure GenResponse where
  text : Option String
deriving DecidableEq

/-- A thrown JavaScript error; `.message` may be `undefined`. -/
structure JsError where
  message : Option String
deriving DecidableEq

/-- What one remote `generateContent` call does: resolve or throw. -/
inductive RemoteOutcome where
  | success (resp : GenResponse)
  | failure (err : JsError)

/-- The three distinct `throw new Error(...)` sites of `refinePrompt`, each carrying
its message text.  `missingCredential` is the guard before any remote call,
`entityNotFound` the "Requested entity was not found" classification, `upstream`
the catch-all rethrow. -/
inductive RefineError where
  | missingCredential (msg : String)
  | entityNotFound (msg : String)
  | upstream (msg : String)
deriving DecidableEq

def RefineError.msg : RefineError → String
  | .missingCredential m => m
  | .entityNotFound m => m
  | .upstream m => m

def noKeyMsg : String :=
  "No API key provided. Please set your Gemini API key in the settings."

def entityMsg : String :=
  "Requested entity was not found. This often indicates a model or API key mismatch. Please check your API key selection."

def upstreamFallbackMsg : String :=
  "The AI encountered an issue refining your prompt."

def entityPattern : String := "Requested entity was not found"

def genFallbackText : String := "Failed to generate a refined prompt."

/-- Embedding of `refinePrompt`.  `customApiKey = none` models an absent argument
(the parameter is optional); the guard `!customApiKey` is true for both an absent
and an empty key.  The second component of the result lists the remote requests
that were issued (the source issues at most one). -/
def refinePrompt (rawPrompt : String) (goal : RefinementGoal) (modelName : String)
    (customApiKey : Option String) (remote : GenRequest → RemoteOutcome) :
    Except RefineError String × List GenRequest :=
  if customApiKey.getD "" = "" then
    (.error (.missingCredential noKeyMsg), [])
  else
    let req : GenRequest :=
      { model := modelName
        contents := rawPrompt
        systemInstruction := getSystemInstruction goal
        temperature := 7/10
        topP := 19/20 }
    match remote req with
    | .success resp =>
      (.ok (if jsTrim (resp.text.getD "") = "" then genFallbackText
            else jsTrim (resp.text.getD "")), [req])
    | .failure err =>
      match err.message with
      | some m =>
        if strIncludes m entityPattern then
          (.error (.entityNotFound entityMsg), [req])
        else
          (.error (.upstream (if m = "" then upstreamFallbackMsg else m)), [req])
      | none => (.error (.upstream upstreamFallbackMsg), [req])

/-! ## Decimal rendering of a `Nat` (model of JavaScript `Number.prototype.toString`
for the nonnegative integers this application renders). -/

/-- Digit characters; only ever applied to values below 10. -/
def digitChar : Nat → Char
  | 0 => '0' | 1 => '1' | 2 => '2' | 3 => '3' | 4 => '4'
  | 5 => '5' | 6 => '6' | 7 => '7' | 8 => '8' | _ => '9'

def natLex (n : Nat) : List Char :=
  if n < 10 then [digitChar n]
  else natLex (n / 10) ++ [digitChar (n % 10)]
termination_by n
decreasing_by exact Nat.div_lt_self (by omega) (by omega)

def natStr (n : Nat) : String := String.mk (natLex n)

/-! ## JSON values (model of the data handled by `JSON.stringify` / `JSON.parse`) -/

inductive Json where
  | null : Json
  | bool (b : Bool) : Json
  | num (n : Nat) : Json
  | str (s : String) : Json
  | arr (items : List Json) : Json
  | obj (members : List (String × Json)) : Json

/-! ### Serialization (model of `JSON.stringify`) -/

/-- Hexadecimal digit characters; only ever applied to values below 16. -/
def hexChar : Nat → Char
  | 0 => '0' | 1 => '1' | 2 => '2' | 3 => '3' | 4 => '4' | 5 => '5' | 6 => '6'
  | 7 => '7' | 8 => '8' | 9 => '9' | 10 => 'a' | 11 => 'b' | 12 => 'c'
  | 13 => 'd' | 14 => 'e' | _ => 'f'

/-- How `JSON.stringify` escapes one character inside a string literal. -/
def escapeChar (c : Char) : List Char :=
  if c = '"' then ['\\', '"']
  else if c = '\\' then ['\\', '\\']
  else if c = '\x08' then ['\\', 'b']
  else if c = '\x0c' then ['\\', 'f']
  else if c = '\n' then ['\\', 'n']
  else if c = '\r' then ['\\', 'r']
  else if c = '\t' then ['\\', 't']
  else if c.toNat < 32 then ['\\', 'u', '0', '0', hexChar (c.toNat / 16), hexChar (c.toNat % 16)]
  else [c]

def escChars : List Char → List Char
  | [] => []
  | c :: cs => escapeChar c ++ escChars cs

def strChars (s : String) : List Char := '"' :: escChars s.data ++ ['"']

mutual

def jsonChars : Json → List Char
  | .null => "null".data
  | .bool true => "true".data
  | .bool false => "false".data
  | .num n => natLex n
  | .str s => strChars s
  | .arr items => '[' :: itemsChars items ++ [']']
  | .obj members => '\x7b' :: membersChars members ++ ['\x7d']

def itemsChars : List Json → List Char
  | [] => []
  | [x] => jsonChars x
  | x :: y :: xs => jsonChars x ++ ',' :: itemsChars (y :: xs)

def membersChars : List (String × Json) → List Char
  | [] => []
  | [(k, v)] => strChars k ++ ':' :: jsonChars v
  | (k, v) :: m :: ms => strChars k ++ ':' :: jsonChars v ++ ',' :: membersChars (m :: ms)

end

def Json.stringify (j : Json) : String := String.mk (jsonChars j)

/-! ### Parsing (model of `JSON.parse`) -/

def isWsChar (c : Char) : Bool := c == ' ' || c == '\t' || c == '\n' || c == '\r'

def skipWs : List Char → List Char
  | [] => []
  | c :: cs => if isWsChar c then skipWs cs else c :: cs

def isDigitCh (c : Char) : Bool := 48 ≤ c.toNat && c.toNat ≤ 57

def digitVal (c : Char) : Nat := c.toNat - 48

def hexValOf (c : Char) : Option Nat :=
  if 48 ≤ c.toNat ∧ c.toNat ≤ 57 then some (c.toNat - 48)
  else if 97 ≤ c.toNat ∧ c.toNat ≤ 102 then some (c.toNat - 87)
  else if 65 ≤ c.toNat ∧ c.toNat ≤ 70 then some (c.toNat - 55)
  else none

/-- Scan the body of a JSON string literal after the opening quote, handling the
escape sequences; returns the decoded characters and the input after the closing
quote.  Raw control characters are rejected, as in strict JSON. -/
def parseStringBody : List Char → Option (List Char × List Char)
  | [] => none
  | c :: cs =>
    if c = '"' then some ([], cs)
    else if c = '\\' then
      match cs with
      | [] => none
      | e :: cs2 =>
        if e = '"' then (parseStringBody cs2).map (fun p => ('"' :: p.1, p.2))
        else if e = '\\' then (parseStringBody cs2).map (fun p => ('\\' :: p.1, p.2))
        else if e = '/' then (parseStringBody cs2).map (fun p => ('/' :: p.1, p.2))
        else if e = 'b' then (parseStringBody cs2).map (fun p => ('\x08' :: p.1, p.2))
        else if e = 'f' then (parseStringBody cs2).map (fun p => ('\x0c' :: p.1, p.2))
        else if e = 'n' then (parseStringBody cs2).map (fun p => ('\n' :: p.1, p.2))
        else if e = 'r' then (parseStringBody cs2).map (fun p => ('\r' :: p.1, p.2))
        else if e = 't' then (parseStringBody cs2).map (fun p => ('\t' :: p.1, p.2))
        else if e = 'u' then
          match cs2 with
          | h1 :: h2 :: h3 :: h4 :: cs3 =>
            match hexValOf h1, hexValOf h2, hexValOf h3, hexValOf h4 with
            | some a, some b, some c2, some d =>
              (parseStringBody cs3).map
                (fun p => (Char.ofNat (a * 4096 + b * 256 + c2 * 16 + d) :: p.1, p.2))
            | _, _, _, _ => none
          | _ => none
        else none
    else if c.toNat < 32 then none
    else (parseStringBody cs).map (fun p => (c :: p.1, p.2))

/-- Scan a run of decimal digits, accumulating the value. -/
def scanDigits : List Char → Nat → Nat × List Char
  | [], acc => (acc, [])
  | c :: cs, acc => if isDigitCh c then scanDigits cs (acc * 10 + digitVal c) else (acc, c :: cs)

mutual

def parseVal : Nat → List Char → Option (Json × List Char)
  | 0, _ => none
  | f + 1, cs =>
    match skipWs cs with
    | [] => none
    | c :: rest =>
      if c = 'n' then
        match rest with
        | 'u' :: 'l' :: 'l' :: r => some (.null, r)
        | _ => none
      else if c = 't' then
        match rest with
        | 'r' :: 'u' :: 'e' :: r => some (.bool true, r)
        | _ => none
      else if c = 'f' then
        match rest with
        | 'a' :: 'l' :: 's' :: 'e' :: r => some (.bool false, r)
        | _ => none
      else if c = '"' then
        match parseStringBody rest with
        | some (l, r) => some (.str (String.mk l), r)
        | none => none
      else if c = '[' then
        match skipWs rest with
        | ']' :: r => some (.arr [], r)
        | r =>
          match parseItems f r with
          | some (xs, r2) => some (.arr xs, r2)
          | none => none
      else if c = '\x7b' then
        match skipWs rest with
        | '\x7d' :: r => some (.obj [], r)
        | r =>
          match parseMembers f r with
          | some (ms, r2) => some (.obj ms, r2)
          | none => none
      else if isDigitCh c then
        let p := scanDigits rest (digitVal c)
        some (.num p.1, p.2)
      else none

def parseItems : Nat → List Char → Option (List Json × List Char)
  | 0, _ => none
  | f + 1, cs =>
    match parseVal f cs with
    | none => none
    | some (v, r) =>
      match skipWs r with
      | ',' :: r2 =>
        match parseItems f r2 with
        | some (xs, r3) => some (v :: xs, r3)
        | none => none
      | ']' :: r2 => some ([v], r2)
      | _ => none

def parseMembers : Nat → List Char → Option (List (String × Json) × List Char)
  | 0, _ => none
  | f + 1, cs =>
    match skipWs cs with
    | '"' :: r =>
      match parseStringBody r with
      | none => none
      | some (k, r2) =>
        match skipWs r2 with
        | ':' :: r3 =>
          match parseVal f r3 with
          | none => none
          | some (v, r4) =>
            match skipWs r4 with
            | ',' :: r5 =>
              match parseMembers f r5 with
              | some (ms, r6) => some ((String.mk k, v) :: ms, r6)
              | none => none
            | '\x7d' :: r5 => some ([(String.mk k, v)], r5)
            | _ => none
        | _ => none
    | _ => none

end

/-- Model of `JSON.parse`: parse one value, then require only whitespace to remain.
The fuel `s.data.length + 1` dominates the recursion depth, which consumes at
least one character per two fuel steps. -/
def Json.parse (s : String) : Option Json :=
  match parseVal (s.data.length + 1) s.data with
  | some (v, r) => if skipWs r = [] then some v else none
  | none => none

/-! ## History persistence (src/App.tsx) -/

/-- The JavaScript object value of one history entry, fields in the literal's
insertion order, as `JSON.stringify` sees it. -/
def entryJson (e : RefinementHistory) : Json :=
  .obj [("id", .str e.id), ("original", .str e.original), ("refined", .str e.refined),
        ("goal", .str e.goal.value), ("timestamp", .num e.timestamp)]

def historyToJson (l : List RefinementHistory) : Json := .arr (l.map entryJson)

/-- The history persist effect: `localStorage.setItem('prompt_history', JSON.stringify(history))`. -/
def persistHistory (l : List RefinementHistory) : String := Json.stringify (historyToJson l)

/-- The history load effect.  `stored` is `localStorage.getItem('prompt_history')`
(`none` when the key is absent).  The initial state is the empty array; when the
stored text is present, `setHistory(JSON.parse(savedHistory))` installs whatever
value parses, and a parse exception is caught, leaving the initial state. -/
def loadHistory : Option String → Json
  | none => Json.arr []
  | some s =>
    match Json.parse s with
    | some v => v
    | none => Json.arr []

/-- Decoder used to state deep equality between a loaded JSON value and a
`RefinementHistory` list: the inverse of `entryJson` on canonical encodings. -/
def goalOfString (s : String) : Option RefinementGoal :=
  if s = "General Improvement" then some .GENERAL
  else if s = "Technical & Scientific" then some .TECHNICAL
  else if s = "Creative & Descriptive" then some .CREATIVE
  else if s = "Ultra Concise" then some .CONCISE
  else if s = "Software Development" then some .CODING
  else if s = "Highly Structured/JSON" then some .STRUCTURED
  else none

def entryFromJson : Json → Option RefinementHistory
  | .obj [("id", .str i), ("original", .str o), ("refined", .str r),
          ("goal", .str g), ("timestamp", .num t)] =>
    (goalOfString g).map (fun gl =>
      { id := i, original := o, refined := r, goal := gl, timestamp := t })
  | _ => none

def decodeEntries : List Json → Option (List RefinementHistory)
  | [] => some []
  | x :: xs =>
    match entryFromJson x, decodeEntries xs with
    | some e, some es => some (e :: es)
    | _, _ => none

def historyFromJson : Json → Option (List RefinementHistory)
  | .arr xs => decodeEntries xs
  | _ => none

/-! ## The App handler (src/App.tsx) -/

/-- `setHistory(prev => [newEntry, ...prev].slice(0, 10))`: prepend, keep first 10. -/
def record (list : List RefinementHistory) (entry : RefinementHistory) :
    List RefinementHistory :=
  (entry :: list).take 10

/-- The component state of `App` that `handleRefine` reads or writes. -/
structure AppState where
  input : String
  refined : String
  goal : RefinementGoal
  selectedModel : String
  isLoading : Bool
  history : List RefinementHistory
  error : Option String
  customApiKey : String
  hasCustomKey : Bool
deriving DecidableEq

/-- Embedding of `handleRefine`, run to completion.  `now1` and `now2` are the
results of the two separate `Date.now()` invocations in the `newEntry` literal
(`id: Date.now().toString()` and `timestamp: Date.now()`), in evaluation order.
The second component lists the remote requests issued. -/
def handleRefine (s : AppState) (remote : GenRequest → RemoteOutcome)
    (now1 now2 : Nat) : AppState × List GenRequest :=
  if jsTrim s.input = "" then (s, [])
  else
    let modelToUse := if s.hasCustomKey then s.selectedModel else "gemini-2.5-flash"
    let r := refinePrompt s.input s.goal modelToUse (some s.customApiKey) remote
    match r.1 with
    | .ok result =>
      let newEntry : RefinementHistory :=
        { id := natStr now1, original := s.input, refined := result,
          goal := s.goal, timestamp := now2 }
      ({ s with refined := result, history := record s.history newEntry,
                error := none, isLoading := false }, r.2)
    | .error e =>
      ({ s with error := some (if e.msg = "" then "An error occurred" else e.msg),
                isLoading := false }, r.2)

/-! ## Equality instances for result types -/

deriving instance DecidableEq for Except

/-- A remote stub used by concrete witnesses: always throws without a message. -/
def stubRemote : GenRequest → RemoteOutcome := fun _ => .failure ⟨none⟩

/-! ## Claims about the refinement client -/

/-- Claim C1: for every raw prompt, goal and model identifier, calling
`refinePrompt` with an empty (or absent) credential fails immediately with the
missing-credential error, and the remote dependency is never invoked (the list
of issued requests is empty). -/
theorem refine_missing_credential (rawPrompt : String) (goal : RefinementGoal)
    (modelName : String) (customApiKey : Option String)
    (remote : GenRequest → RemoteOutcome)
    (h : customApiKey = none ∨ customApiKey = some "") :
    refinePrompt rawPrompt goal modelName customApiKey remote =
      (.error (.missingCredential noKeyMsg), []) := by
  rcases h with h | h <;> subst h <;> rfl

/-- Witness for C1 at a concrete input (absent credential). -/
theorem refine_missing_credential_witness :
    ((none : Option String) = none ∨ (none : Option String) = some "") ∧
    refinePrompt "write a poem" .GENERAL "gemini-2.5-flash-lite" none stubRemote =
      (.error (.missingCredential noKeyMsg), []) :=
  ⟨Or.inl rfl,
    refine_missing_credential "write a poem" .GENERAL "gemini-2.5-flash-lite" none
      stubRemote (Or.inl rfl)⟩

/-- Claim C9: with a non-empty credential, `refinePrompt` issues exactly one
generation request, carrying the given model identifier, the raw prompt as
contents, the built system instruction, temperature 0.7 and top-p 0.95. -/
theorem refine_request_payload (rawPrompt : String) (goal : RefinementGoal)
    (modelName : String) (k : String) (remote : GenRequest → RemoteOutcome)
    (hk : k ≠ "") :
    (refinePrompt rawPrompt goal modelName (some k) remote).2 =
      [{ model := modelName
         contents := rawPrompt
         systemInstruction := getSystemInstruction goal
         temperature := 7/10
         topP := 19/20 }] := by
  unfold refinePrompt
  rw [if_neg (by simpa using hk)]
  dsimp only
  rcases remote _ with resp | err
  · rfl
  · obtain ⟨msg⟩ := err
    rcases msg with _ | m
    · rfl
    · dsimp only
      split <;> rfl

/-- Witness for C9 at a concrete input. -/
theorem refine_request_payload_witness :
    "my-key" ≠ "" ∧
    (refinePrompt "p" .CODING "gemini-3-pro-preview" (some "my-key") stubRemote).2 =
      [{ model := "gemini-3-pro-preview"
         contents := "p"
         systemInstruction := getSystemInstruction .CODING
         temperature := 7/10
         topP := 19/20 }] :=
  ⟨by decide,
    refine_request_payload "p" .CODING "gemini-3-pro-preview" "my-key" stubRemote
      (by decide)⟩

/-- Claim C3: when the remote call throws, `refinePrompt` classifies the failure
by the error's message text: a message containing the substring
`"Requested entity was not found"` yields the entity-not-found error carrying the
user-facing model/credential-mismatch message; any other message is passed
through as an upstream error; an absent (or empty, hence falsy) message yields
the upstream error with the generic fallback message. -/
theorem refine_error_classification (rawPrompt : String) (goal : RefinementGoal)
    (modelName : String) (k : String) (err : JsError) (hk : k ≠ "") :
    (∀ m, err.message = some m → strIncludes m entityPattern = true →
      (refinePrompt rawPrompt goal modelName (some k) (fun _ => .failure err)).1 =
        .error (.entityNotFound entityMsg)) ∧
    (∀ m, err.message = some m → strIncludes m entityPattern = false → m ≠ "" →
      (refinePrompt rawPrompt goal modelName (some k) (fun _ => .failure err)).1 =
        .error (.upstream m)) ∧
    ((err.message = none ∨ err.message = some "") →
      (refinePrompt rawPrompt goal modelName (some k) (fun _ => .failure err)).1 =
        .error (.upstream upstreamFallbackMsg)) := by
  unfold refinePrompt
  rw [if_neg (by simpa using hk)]
  refine ⟨?_, ?_, ?_⟩
  · intro m hm hpat
    simp only [hm]
    rw [if_pos hpat]
  · intro m hm hpat hne
    simp only [hm]
    rw [if_neg (by simp [hpat]), if_neg hne]
  · rintro (hm | hm)
    · simp [hm]
    · simp only [hm]
      rw [if_neg (by decide)]
      simp

/-- Witness for C3 at concrete inputs, exercising all three clauses. -/
theorem refine_error_classification_witness :
    ((refinePrompt "p" .GENERAL "m" (some "k")
        (fun _ => .failure ⟨some "zz Requested entity was not found zz"⟩)).1 =
      .error (.entityNotFound entityMsg)) ∧
    ((refinePrompt "p" .GENERAL "m" (some "k")
        (fun _ => .failure ⟨some "boom"⟩)).1 = .error (.upstream "boom")) ∧
    ((refinePrompt "p" .GENERAL "m" (some "k")
        (fun _ => .failure ⟨none⟩)).1 = .error (.upstream upstreamFallbackMsg)) :=
  ⟨(refine_error_classification "p" .GENERAL "m" "k"
      ⟨some "zz Requested entity was not found zz"⟩ (by decide)).1
      _ rfl (by decide),
   (refine_error_classification "p" .GENERAL "m" "k" ⟨some "boom"⟩ (by decide)).2.1
      _ rfl (by decide) (by decide),
   (refine_error_classification "p" .GENERAL "m" "k" ⟨none⟩ (by decide)).2.2
      (Or.inl rfl)⟩

/-- Claim C4: when the remote call succeeds, `refinePrompt` returns the generated
text trimmed of leading and trailing whitespace; when the generated text is
absent, empty or whitespace-only, it succeeds with exactly the literal fallback
text `"Failed to generate a refined prompt."` instead of failing. -/
theorem refine_success_trims (rawPrompt : String) (goal : RefinementGoal)
    (modelName : String) (k : String) (resp : GenResponse) (hk : k ≠ "") :
    (∀ t, resp.text = some t → jsTrim t ≠ "" →
      (refinePrompt rawPrompt goal modelName (some k) (fun _ => .success resp)).1 =
        .ok (jsTrim t)) ∧
    ((resp.text = none ∨ resp.text.map jsTrim = some "") →
      (refinePrompt rawPrompt goal modelName (some k) (fun _ => .success resp)).1 =
        .ok genFallbackText) := by
  unfold refinePrompt
  rw [if_neg (by simpa using hk)]
  constructor
  · intro t ht hne
    simp only [ht, Option.getD_some]
    rw [if_neg hne]
  · rintro (ht | ht)
    · simp only [ht, Option.getD_none]
      rfl
    · rcases hsome : resp.text with _ | t
      · rw [hsome] at ht; simp at ht
      · rw [hsome] at ht
        have ht2 : jsTrim t = "" := by simpa using ht
        simp only [hsome, Option.getD_some]
        rw [if_pos ht2]

/-- Witness for C4 at concrete inputs, exercising both clauses. -/
theorem refine_success_trims_witness :
    ((refinePrompt "p" .GENERAL "m" (some "k")
        (fun _ => .success ⟨some "  hello  "⟩)).1 = .ok "hello") ∧
    ((refinePrompt "p" .GENERAL "m" (some "k")
        (fun _ => .success ⟨some "   "⟩)).1 = .ok genFallbackText) ∧
    ((refinePrompt "p" .GENERAL "m" (some "k")
        (fun _ => .success ⟨none⟩)).1 = .ok genFallbackText) :=
  ⟨by
      have h := (refine_success_trims "p" .GENERAL "m" "k" ⟨some "  hello  "⟩
        (by decide)).1 "  hello  " rfl (by decide)
      rw [h]; rfl,
   (refine_success_trims "p" .GENERAL "m" "k" ⟨some "   "⟩ (by decide)).2
      (Or.inr (by decide)),
   (refine_success_trims "p" .GENERAL "m" "k" ⟨none⟩ (by decide)).2 (Or.inl rfl)⟩

/-! ## Claims about the App handler and history -/

/-- Claim C2: `record` prepends and truncates to 10: applied 11 times starting
from the empty history, the result has length 10, its head is the 11th entry,
its last element is the 2nd entry, and the 1st entry has been evicted. -/
theorem record_eleven (e1 e2 e3 e4 e5 e6 e7 e8 e9 e10 e11 : RefinementHistory) :
    (record (record (record (record (record (record (record (record (record
        (record (record [] e1) e2) e3) e4) e5) e6) e7) e8) e9) e10) e11).length = 10 ∧
    (record (record (record (record (record (record (record (record (record
        (record (record [] e1) e2) e3) e4) e5) e6) e7) e8) e9) e10) e11).head? = some e11 ∧
    (record (record (record (record (record (record (record (record (record
        (record (record [] e1) e2) e3) e4) e5) e6) e7) e8) e9) e10) e11).getLast? = some e2 ∧
    (record (record (record (record (record (record (record (record (record
        (record (record [] e1) e2) e3) e4) e5) e6) e7) e8) e9) e10) e11) =
      [e11, e10, e9, e8, e7, e6, e5, e4, e3, e2] :=
  ⟨rfl, rfl, rfl, rfl⟩

/-- Claim C10: when the raw input is empty or whitespace-only, `handleRefine` is
a no-op: no remote request is issued and the whole component state (history,
refined output, loading flag, error state) is unchanged. -/
theorem handleRefine_noop (s : AppState) (remote : GenRequest → RemoteOutcome)
    (now1 now2 : Nat) (h : jsTrim s.input = "") :
    handleRefine s remote now1 now2 = (s, []) := by
  unfold handleRefine
  rw [if_pos h]

/-- Witness for C10 at a concrete whitespace-only input. -/
theorem handleRefine_noop_witness :
    jsTrim "  \n " = "" ∧
    handleRefine
      { input := "  \n ", refined := "r", goal := .GENERAL, selectedModel := "s",
        isLoading := true, history := [], error := some "e", customApiKey := "k",
        hasCustomKey := true } stubRemote 1 2 =
      ({ input := "  \n ", refined := "r", goal := .GENERAL, selectedModel := "s",
         isLoading := true, history := [], error := some "e", customApiKey := "k",
         hasCustomKey := true }, []) :=
  ⟨by decide, handleRefine_noop _ stubRemote 1 2 (by decide)⟩

/-! ## Round-trip machinery for the JSON model

The main goal of this section is `parse_persistHistory`: parsing a persisted
history string returns exactly the JSON value that was serialized, for every
`RefinementHistory` list.  The proof follows the printer's grammar: one lemma
per syntactic class, each stating that the parser consumes the printed form and
returns the remaining input unchanged. -/

theorem skipWs_cons_false (c : Char) (t : List Char) (h : isWsChar c = false) :
    skipWs (c :: t) = c :: t := by
  simp [skipWs, h]

theorem digitChar_isDigit (d : Nat) (h : d < 10) : isDigitCh (digitChar d) = true := by
  interval_cases d <;> decide

theorem digitVal_digitChar (d : Nat) (h : d < 10) : digitVal (digitChar d) = d := by
  interval_cases d <;> decide

theorem natLex_digits (n : Nat) : ∀ c ∈ natLex n, isDigitCh c = true := by
  induction n using Nat.strong_induction_on with
  | _ n ih =>
    intro c hc
    rw [natLex] at hc
    by_cases h : n < 10
    · rw [if_pos h] at hc
      simp only [List.mem_singleton] at hc
      exact hc ▸ digitChar_isDigit n h
    · rw [if_neg h] at hc
      rcases List.mem_append.mp hc with h1 | h1
      · exact ih (n / 10) (Nat.div_lt_self (by omega) (by omega)) c h1
      · simp only [List.mem_singleton] at h1
        exact h1 ▸ digitChar_isDigit (n % 10) (Nat.mod_lt n (by omega))

theorem natLex_ne_nil (n : Nat) : natLex n ≠ [] := by
  rw [natLex]
  by_cases h : n < 10
  · rw [if_pos h]; simp
  · rw [if_neg h]; simp

/-- The value accumulated by a left fold over decimal digits. -/
def digitsVal (a : Nat) (l : List Char) : Nat :=
  l.foldl (fun x c => x * 10 + digitVal c) a

theorem digitsVal_natLex (n : Nat) : ∀ a, ∃ p, 0 < p ∧ digitsVal a (natLex n) = a * p + n := by
  induction n using Nat.strong_induction_on with
  | _ n ih =>
    intro a
    rw [natLex]
    by_cases h : n < 10
    · rw [if_pos h]
      exact ⟨10, by omega, by
        simp [digitsVal, digitVal_digitChar n h]⟩
    · rw [if_neg h]
      obtain ⟨p, hp, hv⟩ := ih (n / 10) (Nat.div_lt_self (by omega) (by omega)) a
      refine ⟨p * 10, by positivity, ?_⟩
      simp only [digitsVal, List.foldl_append] at hv ⊢
      rw [hv]
      simp [digitVal_digitChar (n % 10) (Nat.mod_lt n (by omega))]
      ring_nf
      omega

/-- Whether the first character of the remaining input is not a digit. -/
def headNotDigit : List Char → Prop
  | [] => True
  | c :: _ => isDigitCh c = false

theorem scanDigits_spec (ds : List Char) :
    ∀ acc rest, (∀ c ∈ ds, isDigitCh c = true) → headNotDigit rest →
      scanDigits (ds ++ rest) acc = (digitsVal acc ds, rest) := by
  induction ds with
  | nil =>
    intro acc rest _ hrest
    cases rest with
    | nil => rfl
    | cons c t =>
      simp only [headNotDigit] at hrest
      simp [scanDigits, hrest, digitsVal]
  | cons d ds ih =>
    intro acc rest hds hrest
    have hd : isDigitCh d = true := hds d (by simp)
    simp only [List.cons_append, scanDigits, hd, if_true]
    exact ih (acc * 10 + digitVal d) rest (fun c hc => hds c (by simp [hc])) hrest

theorem hexValOf_hexChar (x : Nat) (h : x < 16) : hexValOf (hexChar x) = some x := by
  interval_cases x <;> decide

theorem parseStringBody_esc (l : List Char) :
    ∀ rest, parseStringBody (escChars l ++ '"' :: rest) = some (l, rest) := by
  induction l with
  | nil =>
    intro rest
    rw [escChars, List.nil_append, parseStringBody.eq_def]
    simp
  | cons c l ih =>
    intro rest
    simp only [escChars, List.append_assoc]
    by_cases h1 : c = '"'
    · subst h1
      rw [escapeChar, if_pos rfl]
      rw [List.cons_append, List.cons_append, List.nil_append, parseStringBody.eq_def]
      simp [ih]
    · by_cases h2 : c = '\\'
      · subst h2
        rw [escapeChar, if_neg (by decide), if_pos rfl]
        rw [List.cons_append, List.cons_append, List.nil_append, parseStringBody.eq_def]
        simp [ih]
      · by_cases h3 : c = '\x08'
        · subst h3
          rw [escapeChar, if_neg (by decide), if_neg (by decide), if_pos rfl]
          rw [List.cons_append, List.cons_append, List.nil_append, parseStringBody.eq_def]
          simp [ih]
        · by_cases h4 : c = '\x0c'
          · subst h4
            rw [escapeChar, if_neg (by decide), if_neg (by decide), if_neg (by decide),
              if_pos rfl]
            rw [List.cons_append, List.cons_append, List.nil_append, parseStringBody.eq_def]
            simp [ih]
          · by_cases h5 : c = '\n'
            · subst h5
              rw [escapeChar, if_neg (by decide), if_neg (by decide), if_neg (by decide),
                if_neg (by decide), if_pos rfl]
              rw [List.cons_append, List.cons_append, List.nil_append, parseStringBody.eq_def]
              simp [ih]
            · by_cases h6 : c = '\r'
              · subst h6
                rw [escapeChar, if_neg (by decide), if_neg (by decide), if_neg (by decide),
                  if_neg (by decide), if_neg (by decide), if_pos rfl]
                rw [List.cons_append, List.cons_append, List.nil_append, parseStringBody.eq_def]
                simp [ih]
              · by_cases h7 : c = '\t'
                · subst h7
                  rw [escapeChar, if_neg (by decide), if_neg (by decide), if_neg (by decide),
                    if_neg (by decide), if_neg (by decide), if_neg (by decide), if_pos rfl]
                  rw [List.cons_append, List.cons_append, List.nil_append, parseStringBody.eq_def]
                  simp [ih]
                · by_cases h8 : c.toNat < 32
                  · -- the \u00xx escape
                    have hdiv : c.toNat / 16 < 16 := by omega
                    have hmod : c.toNat % 16 < 16 := by omega
                    rw [escapeChar, if_neg h1, if_neg h2, if_neg h3, if_neg h4, if_neg h5,
                      if_neg h6, if_neg h7, if_pos h8]
                    simp only [List.cons_append, List.nil_append]
                    rw [parseStringBody.eq_def]
                    simp only [if_neg (show ¬('\\' : Char) = '"' by decide), if_pos rfl,
                      if_neg (show ¬('u' : Char) = '"' by decide),
                      if_neg (show ¬('u' : Char) = '\\' by decide),
                      if_neg (show ¬('u' : Char) = '/' by decide),
                      if_neg (show ¬('u' : Char) = 'b' by decide),
                      if_neg (show ¬('u' : Char) = 'f' by decide),
                      if_neg (show ¬('u' : Char) = 'n' by decide),
                      if_neg (show ¬('u' : Char) = 'r' by decide),
                      if_neg (show ¬('u' : Char) = 't' by decide), if_pos rfl]
                    rw [show hexValOf '0' = some 0 from by decide,
                      hexValOf_hexChar _ hdiv, hexValOf_hexChar _ hmod]
                    simp only [ih, Option.map_some']
                    have hc : Char.ofNat (0 * 4096 + 0 * 256 + c.toNat / 16 * 16 + c.toNat % 16) = c := by
                      have heq : 0 * 4096 + 0 * 256 + c.toNat / 16 * 16 + c.toNat % 16 = c.toNat := by
                        omega
                      rw [heq, Char.ofNat_toNat]
                    rw [hc]
                    simp
                  · -- plain character
                    rw [escapeChar, if_neg h1, if_neg h2, if_neg h3, if_neg h4, if_neg h5,
                      if_neg h6, if_neg h7, if_neg h8]
                    rw [List.cons_append, List.nil_append, parseStringBody.eq_def]
                    simp only [if_neg h1, if_neg h2, if_neg h8, ih, Option.map_some']

/-! Unfolding equations for the mutual printer, stated once for `rw`. -/

theorem jsonChars_str (s : String) : jsonChars (.str s) = strChars s := by
  rw [jsonChars.eq_def]

theorem jsonChars_num (m : Nat) : jsonChars (.num m) = natLex m := by
  rw [jsonChars.eq_def]

theorem jsonChars_arr (xs : List Json) :
    jsonChars (.arr xs) = '[' :: itemsChars xs ++ [']'] := by
  rw [jsonChars.eq_def]

theorem jsonChars_obj (ms : List (String × Json)) :
    jsonChars (.obj ms) = '\x7b' :: membersChars ms ++ ['\x7d'] := by
  rw [jsonChars.eq_def]

theorem membersChars_single (k : String) (v : Json) :
    membersChars [(k, v)] = strChars k ++ ':' :: jsonChars v := by
  rw [membersChars.eq_def]

theorem membersChars_cons (k : String) (v : Json) (m : String × Json)
    (ms : List (String × Json)) :
    membersChars ((k, v) :: m :: ms) =
      strChars k ++ ':' :: jsonChars v ++ ',' :: membersChars (m :: ms) := by
  rw [membersChars.eq_def]

theorem itemsChars_single (x : Json) : itemsChars [x] = jsonChars x := by
  rw [itemsChars.eq_def]

theorem itemsChars_cons (x y : Json) (xs : List Json) :
    itemsChars (x :: y :: xs) = jsonChars x ++ ',' :: itemsChars (y :: xs) := by
  rw [itemsChars.eq_def]

/-- The characters that may follow a printed value inside an array or object. -/
def NextOk (c : Char) : Prop := c = ',' ∨ c = '\x7d' ∨ c = ']'

/-- `v`, printed, parses back from any fuel above `n`, leaving untouched a rest
that starts with a separator or a closing bracket. -/
def ValOkN (v : Json) (n : Nat) : Prop :=
  ∀ g c rest, NextOk c → n ≤ g →
    parseVal (g + 1) (jsonChars v ++ c :: rest) = some (v, c :: rest)

theorem strOk (s : String) : ValOkN (.str s) 0 := by
  intro g c rest _ _
  rw [jsonChars_str, strChars]
  simp only [List.cons_append, List.append_assoc, List.singleton_append]
  rw [parseVal.eq_2]
  rw [skipWs_cons_false _ _ (by decide)]
  simp only [if_neg (show ¬('"' : Char) = 'n' by decide),
    if_neg (show ¬('"' : Char) = 't' by decide),
    if_neg (show ¬('"' : Char) = 'f' by decide), if_pos rfl]
  rw [parseStringBody_esc]
  simp

theorem digit_not_special (c : Char) (h : isDigitCh c = true) :
    c ≠ 'n' ∧ c ≠ 't' ∧ c ≠ 'f' ∧ c ≠ '"' ∧ c ≠ '[' ∧ c ≠ '\x7b' ∧ isWsChar c = false := by
  have h2 : 48 ≤ c.toNat ∧ c.toNat ≤ 57 := by simpa [isDigitCh] using h
  refine ⟨?_, ?_, ?_, ?_, ?_, ?_, ?_⟩
  · rintro rfl; revert h2; decide
  · rintro rfl; revert h2; decide
  · rintro rfl; revert h2; decide
  · rintro rfl; revert h2; decide
  · rintro rfl; revert h2; decide
  · rintro rfl; revert h2; decide
  · cases hw : isWsChar c with
    | false => rfl
    | true =>
      exfalso
      simp only [isWsChar, Bool.or_eq_true, beq_iff_eq] at hw
      rcases hw with ((((((rfl | rfl) | rfl) | rfl) | rfl) | rfl) | rfl) <;>
        revert h2 <;> decide

theorem NextOk.not_digit {c : Char} (h : NextOk c) : isDigitCh c = false := by
  rcases h with rfl | rfl | rfl <;> decide

theorem numOk (m : Nat) : ValOkN (.num m) 0 := by
  intro g c rest hnext _
  rcases hlex : natLex m with _ | ⟨d, ds⟩
  · exact absurd hlex (natLex_ne_nil m)
  have hd : isDigitCh d = true := natLex_digits m d (by rw [hlex]; simp)
  have hds : ∀ x ∈ ds, isDigitCh x = true := fun x hx =>
    natLex_digits m x (by rw [hlex]; simp [hx])
  obtain ⟨hn, ht, hf, hq, hb, hcb, hw⟩ := digit_not_special d hd
  rw [jsonChars_num, hlex]
  simp only [List.cons_append]
  rw [parseVal.eq_2]
  rw [skipWs_cons_false _ _ hw]
  simp only [if_neg hn, if_neg ht, if_neg hf, if_neg hq, if_neg hb, if_neg hcb, hd, if_true]
  have hscan : scanDigits (ds ++ c :: rest) (digitVal d) = (digitsVal (digitVal d) ds, c :: rest) :=
    scanDigits_spec ds (digitVal d) (c :: rest) hds (by simp [headNotDigit, hnext.not_digit])
  rw [hscan]
  obtain ⟨p, hp, hv⟩ := digitsVal_natLex m 0
  rw [hlex] at hv
  simp only [digitsVal, List.foldl_cons] at hv
  simp only [Nat.zero_mul, Nat.zero_add] at hv
  have : digitsVal (digitVal d) ds = m := by
    simp only [digitsVal]
    omega
  rw [this]

theorem skipWs_quote (t : List Char) : skipWs ('"' :: t) = '"' :: t :=
  skipWs_cons_false _ _ (by decide)

theorem skipWs_colon (t : List Char) : skipWs (':' :: t) = ':' :: t :=
  skipWs_cons_false _ _ (by decide)

theorem skipWs_comma (t : List Char) : skipWs (',' :: t) = ',' :: t :=
  skipWs_cons_false _ _ (by decide)

theorem skipWs_rqbrace (t : List Char) : skipWs ('\x7d' :: t) = '\x7d' :: t :=
  skipWs_cons_false _ _ (by decide)

theorem skipWs_rqbracket (t : List Char) : skipWs (']' :: t) = ']' :: t :=
  skipWs_cons_false _ _ (by decide)

theorem skipWs_lqbrace (t : List Char) : skipWs ('\x7b' :: t) = '\x7b' :: t :=
  skipWs_cons_false _ _ (by decide)

theorem skipWs_lqbracket (t : List Char) : skipWs ('[' :: t) = '[' :: t :=
  skipWs_cons_false _ _ (by decide)

theorem parseMembers_ok (n : Nat) :
    ∀ ms : List (String × Json), ms ≠ [] →
      (∀ p ∈ ms, ValOkN p.2 n) →
      ∀ g rest, ms.length * (n + 2) ≤ g →
        parseMembers (g + 1) (membersChars ms ++ '\x7d' :: rest) = some (ms, rest) := by
  intro ms
  induction ms with
  | nil => intro h; exact absurd rfl h
  | cons p ms ih =>
    intro _ hvals g rest hg
    obtain ⟨k, v⟩ := p
    have hv : ValOkN v n := hvals (k, v) (by simp)
    rw [List.length_cons, Nat.succ_mul] at hg
    obtain ⟨g2, hng2, rfl⟩ : ∃ g2, n ≤ g2 ∧ g = g2 + 1 := ⟨g - 1, by omega, by omega⟩
    cases ms with
    | nil =>
      rw [membersChars_single, strChars]
      simp only [List.cons_append, List.append_assoc, List.singleton_append]
      rw [parseMembers.eq_2]
      simp only [skipWs_quote]
      rw [parseStringBody_esc]
      simp only [List.nil_append, skipWs_colon]
      rw [hv g2 '\x7d' rest (Or.inr (Or.inl rfl)) hng2]
      simp only [skipWs_rqbrace]
    | cons m ms2 =>
      rw [membersChars_cons, strChars]
      simp only [List.cons_append, List.append_assoc, List.singleton_append]
      rw [parseMembers.eq_2]
      simp only [skipWs_quote]
      rw [parseStringBody_esc]
      simp only [List.nil_append, skipWs_colon]
      rw [hv g2 ',' (membersChars (m :: ms2) ++ '\x7d' :: rest) (Or.inl rfl) hng2]
      simp only [skipWs_comma]
      rw [ih (by simp) (fun q hq => hvals q (by simp [hq])) g2 rest (by omega)]

theorem parseItems_ok (n : Nat) :
    ∀ xs : List Json, xs ≠ [] →
      (∀ x ∈ xs, ValOkN x n) →
      ∀ g rest, xs.length * (n + 2) ≤ g →
        parseItems (g + 1) (itemsChars xs ++ ']' :: rest) = some (xs, rest) := by
  intro xs
  induction xs with
  | nil => intro h; exact absurd rfl h
  | cons x xs ih =>
    intro _ hvals g rest hg
    have hv : ValOkN x n := hvals x (by simp)
    rw [List.length_cons, Nat.succ_mul] at hg
    obtain ⟨g2, hng2, rfl⟩ : ∃ g2, n ≤ g2 ∧ g = g2 + 1 := ⟨g - 1, by omega, by omega⟩
    cases xs with
    | nil =>
      rw [itemsChars_single]
      rw [parseItems.eq_2]
      rw [hv g2 ']' rest (Or.inr (Or.inr rfl)) hng2]
      simp only [skipWs_rqbracket]
    | cons y ys =>
      rw [itemsChars_cons]
      simp only [List.cons_append, List.append_assoc, List.nil_append]
      rw [parseItems.eq_2]
      rw [hv g2 ',' (itemsChars (y :: ys) ++ ']' :: rest) (Or.inl rfl) hng2]
      simp only [skipWs_comma]
      rw [ih (by simp) (fun q hq => hvals q (by simp [hq])) g2 rest (by omega)]

theorem membersChars_head (p : String × Json) (ps : List (String × Json)) :
    ∃ t, membersChars (p :: ps) = '"' :: t := by
  obtain ⟨k, v⟩ := p
  cases ps with
  | nil =>
    refine ⟨escChars k.data ++ ['"'] ++ (':' :: jsonChars v), ?_⟩
    rw [membersChars_single, strChars]
    simp
  | cons m ms =>
    refine ⟨escChars k.data ++ ['"'] ++ (':' :: (jsonChars v ++ ',' :: membersChars (m :: ms))), ?_⟩
    rw [membersChars_cons, strChars]
    simp

theorem objOk (n : Nat) (ms : List (String × Json)) (hne : ms ≠ [])
    (hvals : ∀ p ∈ ms, ValOkN p.2 n) :
    ValOkN (.obj ms) (ms.length * (n + 2) + 1) := by
  intro g c rest hnext hg
  obtain ⟨g2, hg2, rfl⟩ : ∃ g2, ms.length * (n + 2) ≤ g2 ∧ g = g2 + 1 :=
    ⟨g - 1, by omega, by omega⟩
  rw [jsonChars_obj]
  simp only [List.cons_append, List.append_assoc, List.singleton_append]
  rw [parseVal.eq_2]
  obtain ⟨p, ps, rfl⟩ : ∃ p ps, ms = p :: ps := by
    cases ms with
    | nil => exact absurd rfl hne
    | cons p ps => exact ⟨p, ps, rfl⟩
  obtain ⟨t, ht⟩ := membersChars_head p ps
  rw [ht]
  simp only [List.cons_append, List.nil_append, skipWs_lqbrace, skipWs_quote]
  simp only [if_neg (show ¬('\x7b' : Char) = 'n' by decide),
    if_neg (show ¬('\x7b' : Char) = 't' by decide),
    if_neg (show ¬('\x7b' : Char) = 'f' by decide),
    if_neg (show ¬('\x7b' : Char) = '"' by decide),
    if_neg (show ¬('\x7b' : Char) = '[' by decide), if_pos rfl, if_true]
  have hmem := parseMembers_ok n (p :: ps) (by simp) hvals g2 (c :: rest) hg2
  rw [ht] at hmem
  simp only [List.cons_append] at hmem
  split
  · rename_i r heq
    exact absurd heq (by simp)
  · rw [hmem]

theorem entryValOk (e : RefinementHistory) : ValOkN (entryJson e) 11 := by
  have h := objOk 0
    [("id", .str e.id), ("original", .str e.original), ("refined", .str e.refined),
     ("goal", .str e.goal.value), ("timestamp", .num e.timestamp)]
    (by simp)
    (by
      intro p hp
      simp only [List.mem_cons, List.mem_singleton, List.not_mem_nil, or_false] at hp
      rcases hp with rfl | rfl | rfl | rfl | rfl
      · exact strOk e.id
      · exact strOk e.original
      · exact strOk e.refined
      · exact strOk e.goal.value
      · exact numOk e.timestamp)
  intro g c rest hnext hg
  exact h g c rest hnext (by simpa using hg)

theorem strChars_len_ge (s : String) : 2 ≤ (strChars s).length := by
  rw [strChars]
  simp [List.length_append]

theorem natLex_len_ge (m : Nat) : 1 ≤ (natLex m).length :=
  List.length_pos.mpr (natLex_ne_nil m)

theorem entry_len_ge (e : RefinementHistory) : 14 ≤ (jsonChars (entryJson e)).length := by
  have h1 := strChars_len_ge e.id
  have h2 := strChars_len_ge e.original
  have h3 := strChars_len_ge e.refined
  have h4 := strChars_len_ge e.goal.value
  have h5 := natLex_len_ge e.timestamp
  have hk1 := strChars_len_ge "id"
  have hk2 := strChars_len_ge "original"
  have hk3 := strChars_len_ge "refined"
  have hk4 := strChars_len_ge "goal"
  have hk5 := strChars_len_ge "timestamp"
  unfold entryJson
  rw [jsonChars_obj, membersChars_cons, membersChars_cons, membersChars_cons,
    membersChars_cons, membersChars_single, jsonChars_str, jsonChars_str, jsonChars_str,
    jsonChars_str, jsonChars_num]
  simp only [List.length_cons, List.length_append]
  omega

theorem items_len_ge :
    ∀ xs : List Json, xs ≠ [] → (∀ x ∈ xs, 14 ≤ (jsonChars x).length) →
      13 * xs.length + 1 ≤ (itemsChars xs).length := by
  intro xs
  induction xs with
  | nil => intro h; exact absurd rfl h
  | cons x xs ih =>
    intro _ hall
    have hx : 14 ≤ (jsonChars x).length := hall x (by simp)
    cases xs with
    | nil => rw [itemsChars_single]; simpa using hx
    | cons y ys =>
      have hrec := ih (by simp) (fun q hq => hall q (by simp [hq]))
      rw [itemsChars_cons]
      simp only [List.length_append, List.length_cons] at hrec ⊢
      omega

theorem history_len_ge (l : List RefinementHistory) :
    13 * l.length + 2 ≤ (jsonChars (historyToJson l)).length := by
  unfold historyToJson
  rw [jsonChars_arr]
  cases l with
  | nil => simp
  | cons e es =>
    have h := items_len_ge ((e :: es).map entryJson) (by simp)
      (by
        intro x hx
        obtain ⟨q, _, rfl⟩ := List.mem_map.mp hx
        exact entry_len_ge q)
    simp only [List.length_map, List.length_cons] at h
    simp only [List.length_cons, List.length_append, List.length_map, List.length_nil]
    omega

theorem itemsChars_entry_head (e : RefinementHistory) (xs : List Json) :
    ∃ t, itemsChars (entryJson e :: xs) = '\x7b' :: t := by
  have hobj : ∃ t2, jsonChars (entryJson e) = '\x7b' :: t2 := by
    unfold entryJson
    rw [jsonChars_obj]
    exact ⟨_, rfl⟩
  obtain ⟨t2, ht2⟩ := hobj
  cases xs with
  | nil => exact ⟨t2, by rw [itemsChars_single, ht2]⟩
  | cons y ys =>
    refine ⟨t2 ++ ',' :: itemsChars (y :: ys), ?_⟩
    rw [itemsChars_cons, ht2]
    simp

theorem parseVal_history (l : List RefinementHistory) :
    ∀ g, 13 * l.length + 2 ≤ g →
      ∀ rest, parseVal (g + 1) (jsonChars (historyToJson l) ++ rest) =
        some (historyToJson l, rest) := by
  intro g hg rest
  unfold historyToJson
  rw [jsonChars_arr]
  simp only [List.cons_append, List.append_assoc, List.singleton_append]
  rw [parseVal.eq_2]
  cases l with
  | nil =>
    simp only [List.map_nil]
    rw [itemsChars.eq_def]
    simp only [List.nil_append, skipWs_lqbracket, skipWs_rqbracket]
    simp only [if_neg (show ¬('[' : Char) = 'n' by decide),
      if_neg (show ¬('[' : Char) = 't' by decide),
      if_neg (show ¬('[' : Char) = 'f' by decide),
      if_neg (show ¬('[' : Char) = '"' by decide), if_pos rfl, if_true]
  | cons e es =>
    simp only [List.length_cons] at hg
    simp only [List.map_cons]
    obtain ⟨t, ht⟩ := itemsChars_entry_head e (es.map entryJson)
    rw [ht]
    simp only [List.cons_append, List.nil_append, skipWs_lqbracket, skipWs_lqbrace]
    simp only [if_neg (show ¬('[' : Char) = 'n' by decide),
      if_neg (show ¬('[' : Char) = 't' by decide),
      if_neg (show ¬('[' : Char) = 'f' by decide),
      if_neg (show ¬('[' : Char) = '"' by decide), if_pos rfl, if_true]
    obtain ⟨g2, hg2, rfl⟩ : ∃ g2, (entryJson e :: es.map entryJson).length * 13 ≤ g2 ∧ g = g2 + 1 := by
      refine ⟨g - 1, ?_, by omega⟩
      simp only [List.length_cons, List.length_map]
      omega
    have hitems := parseItems_ok 11 (entryJson e :: es.map entryJson) (by simp)
      (by
        intro x hx
        simp only [List.mem_cons] at hx
        rcases hx with rfl | hx
        · exact entryValOk e
        · obtain ⟨q, _, rfl⟩ := List.mem_map.mp hx
          exact entryValOk q)
      g2 rest (by simp only [List.length_cons, List.length_map]; omega)
    rw [ht] at hitems
    simp only [List.cons_append] at hitems
    split
    · rename_i r heq
      exact absurd heq (by simp)
    · rw [hitems]

theorem parse_persistHistory (l : List RefinementHistory) :
    Json.parse (persistHistory l) = some (historyToJson l) := by
  unfold persistHistory Json.stringify Json.parse
  have hlen := history_len_ge l
  have hmain := parseVal_history l (jsonChars (historyToJson l)).length (by omega) []
  rw [List.append_nil] at hmain
  show (match parseVal ((jsonChars (historyToJson l)).length + 1)
          (jsonChars (historyToJson l)) with
    | some (v, r) => if skipWs r = [] then some v else none
    | none => none) = some (historyToJson l)
  rw [hmain]
  simp [skipWs]

theorem loadHistory_persist (l : List RefinementHistory) :
    loadHistory (some (persistHistory l)) = historyToJson l := by
  simp [loadHistory, parse_persistHistory]

theorem goalOfString_value (g : RefinementGoal) : goalOfString g.value = some g := by
  cases g <;> rfl

theorem entryFromJson_entryJson (e : RefinementHistory) :
    entryFromJson (entryJson e) = some e := by
  unfold entryJson
  simp [entryFromJson, goalOfString_value]

theorem decodeEntries_map (l : List RefinementHistory) :
    decodeEntries (l.map entryJson) = some l := by
  induction l with
  | nil => rfl
  | cons e es ih => simp [decodeEntries, entryFromJson_entryJson, ih]

theorem historyFromJson_toJson (l : List RefinementHistory) :
    historyFromJson (historyToJson l) = some l := by
  unfold historyToJson
  simp [historyFromJson, decodeEntries_map]

/-! ## Claims about history persistence -/

/-- Claim C7: for every HistoryList of 0 to 10 valid entries, `persist` followed
by `load` yields a value deep-equal to the original list (the loaded JSON value
decodes back to exactly the same entries). -/
theorem persist_load_roundtrip (l : List RefinementHistory) (_h : l.length ≤ 10) :
    historyFromJson (loadHistory (some (persistHistory l))) = some l := by
  rw [loadHistory_persist, historyFromJson_toJson]

def witEntryA : RefinementHistory :=
  { id := "1700000000000", original := "write a \"poem\"\n", refined := "Compose a poem.",
    goal := .CREATIVE, timestamp := 1700000000000 }

def witEntryB : RefinementHistory :=
  { id := "1700000000001", original := "fix bug", refined := "Fix the bug.",
    goal := .CODING, timestamp := 1700000000001 }

/-- Witness for C7 at a concrete two-entry history. -/
theorem persist_load_roundtrip_witness :
    ([witEntryA, witEntryB].length ≤ 10) ∧
    historyFromJson (loadHistory (some (persistHistory [witEntryA, witEntryB]))) =
      some [witEntryA, witEntryB] :=
  ⟨by decide, persist_load_roundtrip [witEntryA, witEntryB] (by decide)⟩

def sampleEntry : RefinementHistory :=
  { id := "0", original := "a", refined := "b", goal := .GENERAL, timestamp := 0 }

/-- Counterexample to claim C5 as stated: a persisted storage content encoding
11 valid entries loads back as a list of 11 entries — `load` does not truncate,
so a reachable loaded HistoryList can exceed length 10. -/
theorem load_length_counterexample :
    historyFromJson (loadHistory (some (persistHistory (List.replicate 11 sampleEntry)))) =
      some (List.replicate 11 sampleEntry) ∧
    ¬ ((List.replicate 11 sampleEntry).length ≤ 10) := by
  constructor
  · rw [loadHistory_persist, historyFromJson_toJson]
  · decide

/-- Claim C5 (amended): every list produced by `record` has length at most 10;
`load`, however, performs no truncation — it returns exactly the list encoded in
the stored text, whatever its length, so the ≤ 10 bound holds for loaded lists
only when the persisted content itself has at most 10 entries. -/
theorem record_bounded_load_verbatim :
    (∀ (l : List RefinementHistory) (e : RefinementHistory), (record l e).length ≤ 10) ∧
    (∀ l : List RefinementHistory,
      historyFromJson (loadHistory (some (persistHistory l))) = some l) := by
  constructor
  · intro l e
    rw [record]
    simp only [List.length_take]
    omega
  · intro l
    rw [loadHistory_persist, historyFromJson_toJson]

/-- Parsing the well-formed text "\x7b\x7d" yields the empty object value. -/
theorem parse_empty_obj : Json.parse "\x7b\x7d" = some (Json.obj []) := by
  unfold Json.parse
  rw [show ("\x7b\x7d" : String).data = ['\x7b', '\x7d'] from rfl]
  rw [show (['\x7b', '\x7d'] : List Char).length + 1 = 2 + 1 from rfl]
  rw [parseVal.eq_2]
  simp only [skipWs_lqbrace, skipWs_rqbrace]
  simp only [if_neg (show ¬('\x7b' : Char) = 'n' by decide),
    if_neg (show ¬('\x7b' : Char) = 't' by decide),
    if_neg (show ¬('\x7b' : Char) = 'f' by decide),
    if_neg (show ¬('\x7b' : Char) = '"' by decide),
    if_neg (show ¬('\x7b' : Char) = '[' by decide), if_pos rfl, if_true]
  simp [skipWs]

/-- Counterexample to claim C6 as stated: the stored text "\x7b\x7d" is present
and does not decode as a valid list of HistoryEntry, yet `load` does not return
the empty HistoryList — it installs the parsed (non-list) object value verbatim. -/
theorem load_object_counterexample :
    loadHistory (some "\x7b\x7d") = Json.obj [] ∧
    historyFromJson (Json.obj []) = none ∧
    Json.obj [] ≠ Json.arr [] := by
  refine ⟨?_, rfl, fun h => Json.noConfusion h⟩
  simp [loadHistory, parse_empty_obj]

/-- Parsing the text "\x7bnot json" fails: it is not well-formed JSON. -/
theorem parse_malformed_none : Json.parse "\x7bnot json" = none := by
  unfold Json.parse
  rw [show ("\x7bnot json" : String).data =
    '\x7b' :: 'n' :: 'o' :: 't' :: ' ' :: 'j' :: 's' :: 'o' :: 'n' :: [] from rfl]
  rw [show ('\x7b' :: 'n' :: 'o' :: 't' :: ' ' :: 'j' :: 's' :: 'o' :: 'n'
    :: ([] : List Char)).length + 1 = 9 + 1 from rfl]
  rw [parseVal.eq_2]
  simp only [skipWs_lqbrace]
  simp only [if_neg (show ¬('\x7b' : Char) = 'n' by decide),
    if_neg (show ¬('\x7b' : Char) = 't' by decide),
    if_neg (show ¬('\x7b' : Char) = 'f' by decide),
    if_neg (show ¬('\x7b' : Char) = '"' by decide),
    if_neg (show ¬('\x7b' : Char) = '[' by decide), if_pos rfl, if_true]
  rw [skipWs_cons_false 'n' _ (by decide)]
  rw [show (9 : Nat) = 8 + 1 from rfl]
  show (match
      (match parseMembers (8 + 1) ['n', 'o', 't', ' ', 'j', 's', 'o', 'n'] with
        | some (ms, r2) => some (Json.obj ms, r2)
        | none => none) with
    | some (v, r) => if skipWs r = [] then some v else none
    | none => none) = none
  rw [parseMembers.eq_2]
  rfl

/-- Claim C6 (amended): `load` returns the empty HistoryList when the key is
absent, and likewise — swallowing the error — whenever the stored text fails to
parse as JSON at all (e.g. the malformed text "\x7bnot json"); but stored text
that is well-formed JSON is installed verbatim, with no validation against the
list-of-HistoryEntry shape (e.g. "\x7b\x7d" installs the non-list object value). -/
theorem load_malformed_amended :
    loadHistory none = Json.arr [] ∧
    loadHistory (some "\x7bnot json") = Json.arr [] ∧
    (∀ s, Json.parse s = none → loadHistory (some s) = Json.arr []) ∧
    (∀ s v, Json.parse s = some v → loadHistory (some s) = v) := by
  refine ⟨rfl, ?_, ?_, ?_⟩
  · simp [loadHistory, parse_malformed_none]
  · intro s hs
    simp [loadHistory, hs]
  · intro s v hs
    simp [loadHistory, hs]

/-- Witness for the amended C6, exercising the parse-failure clause on the
malformed text and the verbatim-install clause on "\x7b\x7d". -/
theorem load_malformed_amended_witness :
    Json.parse "\x7bnot json" = none ∧
    loadHistory (some "\x7bnot json") = Json.arr [] ∧
    Json.parse "\x7b\x7d" = some (Json.obj []) ∧
    loadHistory (some "\x7b\x7d") = Json.obj [] :=
  ⟨parse_malformed_none,
   load_malformed_amended.2.2.1 "\x7bnot json" parse_malformed_none,
   parse_empty_obj,
   load_malformed_amended.2.2.2 "\x7b\x7d" (Json.obj []) parse_empty_obj⟩

/-! ## Claim about entry identity (C8) -/

theorem natStr_small (n : Nat) (h : n < 10) : natStr n = String.mk [digitChar n] := by
  rw [natStr, natLex, if_pos h]

theorem record_head (l : List RefinementHistory) (e : RefinementHistory) :
    (record l e).head? = some e := by
  rw [record, show (10 : Nat) = 9 + 1 from rfl, List.take_succ_cons]
  rfl

/-- What `handleRefine` appends on a successful refinement: the new entry holds
the first clock read, rendered in decimal, as `id`, and the second clock read as
`timestamp`. -/
theorem handleRefine_success_shape (s : AppState) (remote : GenRequest → RemoteOutcome)
    (now1 now2 : Nat) (r : String) (hin : ¬ jsTrim s.input = "")
    (hok : (refinePrompt s.input s.goal
      (if s.hasCustomKey then s.selectedModel else "gemini-2.5-flash")
      (some s.customApiKey) remote).1 = .ok r) :
    (handleRefine s remote now1 now2).1.history =
      record s.history
        { id := natStr now1, original := s.input, refined := r,
          goal := s.goal, timestamp := now2 } := by
  unfold handleRefine
  rw [if_neg hin]
  dsimp only
  rw [hok]

def c8State : AppState :=
  { input := "hi", refined := "", goal := .GENERAL, selectedModel := "s",
    isLoading := false, history := [], error := none, customApiKey := "k",
    hasCustomKey := true }

def c8Remote : GenRequest → RemoteOutcome := fun _ => .success ⟨some "out"⟩

/-- Counterexample to claim C8 as stated: `id` and `timestamp` come from two
separate `Date.now()` calls; when the clock ticks between them (first read 0,
second read 1), the created entry's `id` ("0") differs from its own timestamp
rendered as decimal text ("1"). -/
theorem entry_id_counterexample :
    (handleRefine c8State c8Remote 0 1).1.history =
      [{ id := "0", original := "hi", refined := "out", goal := .GENERAL, timestamp := 1 }] ∧
    ("0" : String) ≠ natStr 1 := by
  constructor
  · rw [handleRefine_success_shape c8State c8Remote 0 1 "out" (by decide) (by rfl)]
    rw [record, natStr_small 0 (by omega)]
    rfl
  · rw [natStr_small 1 (by omega)]
    decide

/-- Claim C8 (amended): the created entry's `id` is the decimal rendering of the
first `Date.now()` read, and its `timestamp` is the second, separate read; when
both reads return the same millisecond value, the entry's `id` equals its own
`timestamp` rendered as decimal text. -/
theorem entry_id_amended (s : AppState) (remote : GenRequest → RemoteOutcome)
    (now : Nat) (r : String) (hin : ¬ jsTrim s.input = "")
    (hok : (refinePrompt s.input s.goal
      (if s.hasCustomKey then s.selectedModel else "gemini-2.5-flash")
      (some s.customApiKey) remote).1 = .ok r) :
    ((handleRefine s remote now now).1.history.head?.map (fun e => e.id)) =
      ((handleRefine s remote now now).1.history.head?.map (fun e => natStr e.timestamp)) := by
  rw [handleRefine_success_shape s remote now now r hin hok, record_head]
  simp

/-- Witness for the amended C8 at a concrete input. -/
theorem entry_id_amended_witness :
    (¬ jsTrim "hi" = "") ∧
    ((handleRefine c8State c8Remote 5 5).1.history.head?.map (fun e => e.id)) =
      ((handleRefine c8State c8Remote 5 5).1.history.head?.map
          (fun e => natStr e.timestamp)) :=
  ⟨by decide, entry_id_amended c8State c8Remote 5 "out" (by decide) (by rfl)⟩
